import Mathlib

/-!
Verification development for a spin-based reader–writer lock (`rwlock`).

The source program keeps one atomic `i32` field `state` with the encoding
`IDLE = 0`, `WRITING = -1`, `k > 0` meaning `k` live readers, next to an
`UnsafeCell` payload.  `read()` loops a weak CAS whose operands are recomputed
from the observed value of every failed CAS; `write()` loops a constant weak
CAS `IDLE → WRITING`; dropping a read guard does `fetch_sub(1)`, dropping a
write guard stores `IDLE`.

The embedding below has three layers, each translated from the source:
* pure functions for the loop-step logic and the guard destructors
  (`readFailStep`, `readLoop`, `readOnlyGuardDrop`, `lockGuardDrop`);
* a lock value `RWLock` (the `state` word plus the payload);
* a small-step interleaving semantics `Step` over a pool of threads, in which
  every atomic instruction of the source (each CAS attempt, each drop, each
  payload write under the write guard) is one transition, and weak-CAS
  spurious failure is allowed.  `i32` arithmetic is `Int` with an explicit
  wrap at the one place the source can wrap (`fetch_sub`).
-/

/-- `const IDLE: i32 = 0;` -/
def IDLE : Int := 0

/-- `const WRITING: i32 = -1;` -/
def WRITING : Int := -1

/-- `i32::MAX`. -/
def i32MAX : Int := 2147483647

/-- Two-complement wrap of an unbounded integer into the `i32` range,
used where the source's `i32` arithmetic could overflow (`fetch_sub`). -/
def wrap32 (n : Int) : Int := (n + 2147483648) % 4294967296 - 2147483648

/-- `AtomicI32::fetch_sub(1, ...)`: the value stored back by the
read-guard destructor's atomic decrement. -/
def fetchSub1 (st : Int) : Int := wrap32 (st - 1)

/-- The lock's memory: the atomic `state` word and the `UnsafeCell` payload
of `RWLock<T>`. -/
structure RWLock (T : Type) where
  state : Int
  data : T
  deriving Repr, DecidableEq

/-- `RWLock::new(val)`: payload `val`, state `IDLE`. -/
def RWLock.new {T : Type} (val : T) : RWLock T :=
  { state := IDLE, data := val }

/-- Effect on the lock of `ReadOnlyGuard::drop`:
`self.lock.state.fetch_sub(1, Ordering::Release)`, nothing else. -/
def readOnlyGuardDrop {T : Type} (l : RWLock T) : RWLock T :=
  { state := fetchSub1 l.state, data := l.data }

/-- Effect on the lock of `LockGuard::drop`:
`self.lock.state.store(IDLE, Ordering::Release)`, nothing else. -/
def lockGuardDrop {T : Type} (l : RWLock T) : RWLock T :=
  { state := IDLE, data := l.data }

/-- Outcome of one failed-CAS iteration of the retry loop in `RWLock::read`. -/
inductive ReadFailRes where
  /-- `panic!("the count of readers will exceed ...")` -/
  | panicOverflow : ReadFailRes
  /-- continue looping, next CAS operands `(current, reader_count)` -/
  | retry (current reader_count : Int) : ReadFailRes
  /-- `unreachable!("The actual state == {actual} ...")` -/
  | unreachableHit : ReadFailRes
  deriving Repr, DecidableEq

/-- Body of `read()`'s `while let Err(actual) = ... compare_exchange_weak ...`
loop: given the value `actual` observed by a failed CAS, either panic
(overflow / unreachable) or compute the operands of the next CAS attempt.
Branch order as in the source: the `i32::MAX` check, then `actual >= 0`,
then `actual == WRITING`, then `unreachable!`. -/
def readFailStep (actual : Int) : ReadFailRes :=
  if actual = i32MAX then .panicOverflow
  else if 0 ≤ actual then .retry actual (actual + 1)
  else if actual = WRITING then .retry IDLE 1
  else .unreachableHit

/-- The operands `(current, reader_count)` of the first CAS attempt in
`read()`: `let mut current = IDLE; let mut reader_count = 1;`. -/
def readInit : Int × Int := (IDLE, 1)

/-- Result of a whole `read()` call in the sequential oracle model. -/
inductive ReadOutcome where
  /-- the loop exited: the last CAS, with operands
  `(current, reader_count)`, succeeded and `reader_count` was stored -/
  | acquired (current reader_count : Int) : ReadOutcome
  /-- the call aborted through the overflow `panic!` -/
  | panicOverflow : ReadOutcome
  /-- the call aborted through the `unreachable!` branch -/
  | unreachableHit : ReadOutcome
  deriving Repr, DecidableEq

/-- `read()`'s loop, run against an oracle: `failures` lists, in order, the
`actual` value observed by each failed CAS attempt; after the list is
exhausted the next CAS succeeds with the current operands. -/
def readLoop (current readerCount : Int) : List Int → ReadOutcome
  | [] => .acquired current readerCount
  | a :: rest =>
    match readFailStep a with
    | .panicOverflow => .panicOverflow
    | .retry c k => readLoop c k rest
    | .unreachableHit => .unreachableHit

/-- A whole `read()` call: start from `readInit` and run the loop. -/
def readCall (failures : List Int) : ReadOutcome :=
  readLoop readInit.1 readInit.2 failures

/-! ### Interleaving semantics

A thread is either outside the lock API, inside one of the two acquire
loops, holding a guard, finished, or aborted by a panic.  The whole system
is the lock (`state` word + payload) together with a pool of threads; one
transition is one atomic instruction of the source. -/

/-- Local state of one thread using the lock. -/
inductive TState where
  /-- not yet called into the lock API -/
  | outside : TState
  /-- inside `read()`'s loop, about to attempt
  `compare_exchange_weak(current, reader_count, ...)` -/
  | readAcq (current readerCount : Int) : TState
  /-- holds a live `ReadOnlyGuard` -/
  | reading : TState
  /-- inside `write()`'s loop -/
  | writeAcq : TState
  /-- holds a live `LockGuard` -/
  | writing : TState
  /-- aborted by `panic!` or `unreachable!` -/
  | panicked : TState
  /-- guard dropped, call finished -/
  | finished : TState
  deriving Repr, DecidableEq

/-- Continuation of `read()`'s loop after a failed CAS: `retry` loops with
the new operands, both panic outcomes abort the thread. -/
def failCont : ReadFailRes → TState
  | .retry c k => .readAcq c k
  | .panicOverflow => .panicked
  | .unreachableHit => .panicked

/-- The whole system: the lock's atomic `state` word, the pool of threads
(one list entry per thread), and the `UnsafeCell` payload. -/
structure Sys (T : Type) where
  state : Int
  threads : List TState
  data : T
  deriving Repr, DecidableEq

/-- Transition labels: which thread (by position in the pool) executed
which atomic instruction. -/
inductive Label where
  | callRead (i : Nat) | callWrite (i : Nat)
  | rSucc (i : Nat) | rFail (i : Nat) | rDrop (i : Nat)
  | wSucc (i : Nat) | wFail (i : Nat) | wWrite (i : Nat) | wDrop (i : Nat)
  deriving Repr, DecidableEq

/-- One atomic step of the program, for an arbitrary interleaving.  Weak
CAS is modelled faithfully: a failing CAS (`rFail`, `wFail`) may fire in
ANY lock state — including when the expected value matches (spurious
failure) — and reports the current value of `state` as `actual`; a
succeeding CAS requires the expected value to match. -/
inductive Step {T : Type} : Sys T → Label → Sys T → Prop where
  /-- entering `read()`: `current = IDLE`, `reader_count = 1` -/
  | callRead (st : Int) (pre post : List TState) (d : T) :
      Step ⟨st, pre ++ .outside :: post, d⟩ (.callRead pre.length)
        ⟨st, pre ++ .readAcq IDLE 1 :: post, d⟩
  /-- entering `write()` -/
  | callWrite (st : Int) (pre post : List TState) (d : T) :
      Step ⟨st, pre ++ .outside :: post, d⟩ (.callWrite pre.length)
        ⟨st, pre ++ .writeAcq :: post, d⟩
  /-- `read()`'s CAS succeeds: `state` equals `current`, `reader_count` is
  stored, the call returns a `ReadOnlyGuard` -/
  | rSucc (c k : Int) (pre post : List TState) (d : T) :
      Step ⟨c, pre ++ .readAcq c k :: post, d⟩ (.rSucc pre.length)
        ⟨k, pre ++ .reading :: post, d⟩
  /-- `read()`'s CAS fails observing `actual = state`; the loop body
  (`readFailStep`) decides panic or the next operands -/
  | rFail (st c k : Int) (pre post : List TState) (d : T) :
      Step ⟨st, pre ++ .readAcq c k :: post, d⟩ (.rFail pre.length)
        ⟨st, pre ++ failCont (readFailStep st) :: post, d⟩
  /-- `ReadOnlyGuard::drop`: `fetch_sub(1)` -/
  | rDrop (st : Int) (pre post : List TState) (d : T) :
      Step ⟨st, pre ++ .reading :: post, d⟩ (.rDrop pre.length)
        ⟨fetchSub1 st, pre ++ .finished :: post, d⟩
  /-- `write()`'s CAS succeeds: only from `IDLE`, stores `WRITING` -/
  | wSucc (pre post : List TState) (d : T) :
      Step ⟨IDLE, pre ++ .writeAcq :: post, d⟩ (.wSucc pre.length)
        ⟨WRITING, pre ++ .writing :: post, d⟩
  /-- `write()`'s CAS fails: nothing changes, the loop retries with the
  same constant operands -/
  | wFail (st : Int) (pre post : List TState) (d : T) :
      Step ⟨st, pre ++ .writeAcq :: post, d⟩ (.wFail pre.length)
        ⟨st, pre ++ .writeAcq :: post, d⟩
  /-- the writer mutates the payload through `DerefMut` -/
  | wWrite (st : Int) (pre post : List TState) (d v : T) :
      Step ⟨st, pre ++ .writing :: post, d⟩ (.wWrite pre.length)
        ⟨st, pre ++ .writing :: post, v⟩
  /-- `LockGuard::drop`: `store(IDLE)` -/
  | wDrop (st : Int) (pre post : List TState) (d : T) :
      Step ⟨st, pre ++ .writing :: post, d⟩ (.wDrop pre.length)
        ⟨IDLE, pre ++ .finished :: post, d⟩

/-- Initial configurations: the lock fresh from `RWLock::new` (state
`IDLE`), every thread still outside the API. -/
def InitConf {T : Type} (s : Sys T) : Prop :=
  s.state = IDLE ∧ ∀ t ∈ s.threads, t = TState.outside

/-- Reachability under arbitrary interleaving. -/
def Reaches {T : Type} (s₀ s : Sys T) : Prop :=
  Relation.ReflTransGen (fun a b => ∃ l, Step a l b) s₀ s

/-- Does this thread hold a live `ReadOnlyGuard`? -/
def holdsRead : TState → Bool
  | .reading => true
  | _ => false

/-- Does this thread hold a live `LockGuard`? -/
def holdsWrite : TState → Bool
  | .writing => true
  | _ => false

/-- Number of live `ReadOnlyGuard`s. -/
def nR (ts : List TState) : Nat := ts.countP holdsRead

/-- Number of live `LockGuard`s. -/
def nW (ts : List TState) : Nat := ts.countP holdsWrite

/-- Thread-local invariant: the operands of any pending read CAS satisfy
`reader_count = current + 1` with `0 ≤ current < i32::MAX`. -/
def localOK : TState → Prop
  | .readAcq c k => k = c + 1 ∧ 0 ≤ c ∧ c < i32MAX
  | _ => True

/-- Global invariant: either no writer (then `state` equals the number of
live read guards, which fits in `i32`), or exactly one writer, no readers,
and `state = WRITING`; and every pending read CAS is well-formed. -/
def SysInv {T : Type} (s : Sys T) : Prop :=
  (∀ t ∈ s.threads, localOK t) ∧
  ((nW s.threads = 0 ∧ s.state = (nR s.threads : Int) ∧
      (nR s.threads : Int) ≤ i32MAX) ∨
    (nW s.threads = 1 ∧ nR s.threads = 0 ∧ s.state = WRITING))


/-! ### Invariant preservation -/

theorem wrap32_eq {n : Int} (h1 : -2147483648 ≤ n) (h2 : n ≤ 2147483647) :
    wrap32 n = n := by
  unfold wrap32
  have h3 : 0 ≤ n + 2147483648 := by omega
  have h4 : n + 2147483648 < 4294967296 := by omega
  rw [Int.emod_eq_of_lt h3 h4]
  omega

theorem countP_mid (p : TState → Bool) (pre post : List TState) (x : TState) :
    (pre ++ x :: post).countP p =
      pre.countP p + post.countP p + (if p x then 1 else 0) := by
  simp [List.countP_append, List.countP_cons]
  split <;> omega

theorem localOK_mid {pre post : List TState} {x : TState}
    (h : ∀ t ∈ pre ++ x :: post, localOK t) : localOK x :=
  h x (by simp)

theorem localOK_update {pre post : List TState} {x y : TState}
    (h : ∀ t ∈ pre ++ x :: post, localOK t) (hy : localOK y) :
    ∀ t ∈ pre ++ y :: post, localOK t := by
  intro t ht
  rcases List.mem_append.mp ht with h1 | h2
  · exact h t (List.mem_append.mpr (Or.inl h1))
  · rcases List.mem_cons.mp h2 with rfl | h3
    · exact hy
    · exact h t (List.mem_append.mpr (Or.inr (List.mem_cons_of_mem _ h3)))

theorem holdsRead_failCont (r : ReadFailRes) : holdsRead (failCont r) = false := by
  cases r <;> rfl

theorem holdsWrite_failCont (r : ReadFailRes) : holdsWrite (failCont r) = false := by
  cases r <;> rfl

theorem localOK_failCont {a : Int} (h1 : -1 ≤ a) (h2 : a ≤ i32MAX) :
    localOK (failCont (readFailStep a)) := by
  unfold readFailStep
  split_ifs with hM h0 hW
  · trivial
  · exact ⟨rfl, h0, lt_of_le_of_ne h2 hM⟩
  · refine ⟨by norm_num [IDLE], le_refl _, by norm_num [IDLE, i32MAX]⟩
  · exfalso
    simp only [WRITING] at hW
    omega

@[simp] theorem holdsRead_outside : holdsRead .outside = false := rfl

@[simp] theorem holdsRead_readAcq (c k : Int) : holdsRead (.readAcq c k) = false := rfl

@[simp] theorem holdsRead_reading : holdsRead .reading = true := rfl

@[simp] theorem holdsRead_writeAcq : holdsRead .writeAcq = false := rfl

@[simp] theorem holdsRead_writing : holdsRead .writing = false := rfl

@[simp] theorem holdsRead_panicked : holdsRead .panicked = false := rfl

@[simp] theorem holdsRead_finished : holdsRead .finished = false := rfl

@[simp] theorem holdsWrite_outside : holdsWrite .outside = false := rfl

@[simp] theorem holdsWrite_readAcq (c k : Int) : holdsWrite (.readAcq c k) = false := rfl

@[simp] theorem holdsWrite_reading : holdsWrite .reading = false := rfl

@[simp] theorem holdsWrite_writeAcq : holdsWrite .writeAcq = false := rfl

@[simp] theorem holdsWrite_writing : holdsWrite .writing = true := rfl

@[simp] theorem holdsWrite_panicked : holdsWrite .panicked = false := rfl

@[simp] theorem holdsWrite_finished : holdsWrite .finished = false := rfl

theorem step_inv {T : Type} {s s' : Sys T} {l : Label}
    (h : Step s l s') (hi : SysInv s) : SysInv s' := by
  obtain ⟨hloc, hmain⟩ := hi
  cases h with
  | callRead st pre post d =>
    refine ⟨localOK_update hloc (by norm_num [localOK, IDLE, i32MAX]), ?_⟩
    have eR : nR (pre ++ TState.readAcq IDLE 1 :: post)
        = nR (pre ++ TState.outside :: post) := by
      simp [nR, countP_mid]
    have eW : nW (pre ++ TState.readAcq IDLE 1 :: post)
        = nW (pre ++ TState.outside :: post) := by
      simp [nW, countP_mid]
    dsimp only at hmain ⊢
    rw [eR, eW]
    exact hmain
  | callWrite st pre post d =>
    refine ⟨localOK_update hloc trivial, ?_⟩
    have eR : nR (pre ++ TState.writeAcq :: post)
        = nR (pre ++ TState.outside :: post) := by
      simp [nR, countP_mid]
    have eW : nW (pre ++ TState.writeAcq :: post)
        = nW (pre ++ TState.outside :: post) := by
      simp [nW, countP_mid]
    dsimp only at hmain ⊢
    rw [eR, eW]
    exact hmain
  | rSucc c k pre post d =>
    obtain ⟨hk, hc0, hcM⟩ := localOK_mid hloc
    refine ⟨localOK_update hloc trivial, ?_⟩
    have eR : nR (pre ++ TState.reading :: post)
        = nR (pre ++ TState.readAcq c k :: post) + 1 := by
      simp [nR, countP_mid]
      omega
    have eW : nW (pre ++ TState.reading :: post)
        = nW (pre ++ TState.readAcq c k :: post) := by
      simp [nW, countP_mid]
    dsimp only at hmain ⊢
    simp only [i32MAX] at hcM ⊢
    rcases hmain with ⟨hW0, hst, hbound⟩ | ⟨hW1, hR0, hst⟩
    · simp only [i32MAX] at hbound
      exact Or.inl ⟨by omega, by omega, by omega⟩
    · exfalso
      simp only [WRITING] at hst
      omega
  | rFail st c k pre post d =>
    have hrange : -1 ≤ st ∧ st ≤ i32MAX := by
      dsimp only at hmain
      rcases hmain with ⟨hW0, hst, hbound⟩ | ⟨hW1, hR0, hst⟩
      · constructor <;> omega
      · simp only [WRITING] at hst
        simp only [i32MAX]
        constructor <;> omega
    refine ⟨localOK_update hloc (localOK_failCont hrange.1 hrange.2), ?_⟩
    have eR : nR (pre ++ failCont (readFailStep st) :: post)
        = nR (pre ++ TState.readAcq c k :: post) := by
      simp [nR, countP_mid, holdsRead_failCont]
    have eW : nW (pre ++ failCont (readFailStep st) :: post)
        = nW (pre ++ TState.readAcq c k :: post) := by
      simp [nW, countP_mid, holdsWrite_failCont]
    dsimp only at hmain ⊢
    rw [eR, eW]
    exact hmain
  | rDrop st pre post d =>
    refine ⟨localOK_update hloc trivial, ?_⟩
    have eR : nR (pre ++ TState.finished :: post) + 1
        = nR (pre ++ TState.reading :: post) := by
      simp [nR, countP_mid]
      omega
    have eW : nW (pre ++ TState.finished :: post)
        = nW (pre ++ TState.reading :: post) := by
      simp [nW, countP_mid]
    dsimp only at hmain ⊢
    rcases hmain with ⟨hW0, hst, hbound⟩ | ⟨hW1, hR0, hst⟩
    · simp only [i32MAX] at hbound ⊢
      have hsub : fetchSub1 st = st - 1 := by
        rw [fetchSub1]
        apply wrap32_eq <;> omega
      rw [hsub]
      exact Or.inl ⟨by omega, by omega, by omega⟩
    · exfalso
      omega
  | wSucc pre post d =>
    refine ⟨localOK_update hloc trivial, ?_⟩
    have eR : nR (pre ++ TState.writing :: post)
        = nR (pre ++ TState.writeAcq :: post) := by
      simp [nR, countP_mid]
    have eW : nW (pre ++ TState.writing :: post)
        = nW (pre ++ TState.writeAcq :: post) + 1 := by
      simp [nW, countP_mid]
      omega
    dsimp only at hmain ⊢
    rcases hmain with ⟨hW0, hst, hbound⟩ | ⟨hW1, hR0, hst⟩
    · simp only [IDLE] at hst
      exact Or.inr ⟨by omega, by omega, rfl⟩
    · exfalso
      simp only [IDLE, WRITING] at hst
      omega
  | wFail st pre post d =>
    exact ⟨hloc, hmain⟩
  | wWrite st pre post d v =>
    exact ⟨hloc, hmain⟩
  | wDrop st pre post d =>
    refine ⟨localOK_update hloc trivial, ?_⟩
    have eR : nR (pre ++ TState.finished :: post)
        = nR (pre ++ TState.writing :: post) := by
      simp [nR, countP_mid]
    have eW : nW (pre ++ TState.finished :: post) + 1
        = nW (pre ++ TState.writing :: post) := by
      simp [nW, countP_mid]
      omega
    dsimp only at hmain ⊢
    rcases hmain with ⟨hW0, hst, hbound⟩ | ⟨hW1, hR0, hst⟩
    · exfalso
      omega
    · refine Or.inl ⟨by omega, ?_, ?_⟩
      · simp only [IDLE]
        omega
      · simp only [i32MAX]
        omega

theorem initConf_inv {T : Type} {s : Sys T} (h : InitConf s) : SysInv s := by
  obtain ⟨hst, hout⟩ := h
  have hR : nR s.threads = 0 := by
    rw [nR, List.countP_eq_zero]
    intro t ht
    rw [hout t ht]
    simp [holdsRead]
  have hW : nW s.threads = 0 := by
    rw [nW, List.countP_eq_zero]
    intro t ht
    rw [hout t ht]
    simp [holdsWrite]
  refine ⟨fun t ht => ?_, Or.inl ⟨hW, ?_, ?_⟩⟩
  · rw [hout t ht]
    trivial
  · rw [hst, hR]
    simp [IDLE]
  · rw [hR]
    simp [i32MAX]

theorem reaches_inv {T : Type} {s₀ s : Sys T} (h0 : InitConf s₀)
    (h : Reaches s₀ s) : SysInv s := by
  induction h with
  | refl => exact initConf_inv h0
  | tail _ hstep ih => exact step_inv hstep.choose_spec ih

/-! ### The read loop against an oracle -/

theorem readLoop_panic_iff (fs : List Int) : ∀ c k : Int,
    (∀ a ∈ fs, -1 ≤ a ∧ a ≤ i32MAX) →
    (readLoop c k fs = .panicOverflow ↔ i32MAX ∈ fs) := by
  induction fs with
  | nil =>
    intro c k _
    simp [readLoop]
  | cons a rest ih =>
    intro c k h
    have ha := h a (List.mem_cons_self a rest)
    by_cases hM : a = i32MAX
    · subst hM
      simp [readLoop, readFailStep]
    · have hs : ∃ c' k', readFailStep a = .retry c' k' := by
        unfold readFailStep
        rw [if_neg hM]
        split_ifs with h1 h2
        · exact ⟨a, a + 1, rfl⟩
        · exact ⟨IDLE, 1, rfl⟩
        · exfalso
          simp only [WRITING] at h2
          omega
      obtain ⟨c', k', hck⟩ := hs
      simp only [readLoop, hck, List.mem_cons]
      rw [ih c' k' fun b hb => h b (List.mem_cons_of_mem _ hb)]
      constructor
      · exact Or.inr
      · rintro (hr | hr)
        · exact absurd hr.symm hM
        · exact hr

theorem readLoop_acquired_le (fs : List Int) : ∀ c k : Int, k ≤ i32MAX →
    (∀ a ∈ fs, -1 ≤ a ∧ a ≤ i32MAX) →
    ∀ c' k', readLoop c k fs = .acquired c' k' → k' ≤ i32MAX := by
  induction fs with
  | nil =>
    intro c k hk _ c' k' hl
    simp [readLoop] at hl
    omega
  | cons a rest ih =>
    intro c k hk h c' k' hl
    have ha := h a (List.mem_cons_self a rest)
    have hrest := fun b hb => h b (List.mem_cons_of_mem a hb)
    by_cases hM : a = i32MAX
    · subst hM
      simp [readLoop, readFailStep] at hl
    · by_cases h0 : 0 ≤ a
      · simp only [readLoop, readFailStep, if_neg hM, if_pos h0] at hl
        have haM : a < i32MAX := lt_of_le_of_ne ha.2 hM
        exact ih a (a + 1) (by omega) hrest c' k' hl
      · have hW : a = WRITING := by
          simp only [WRITING]
          omega
        simp only [readLoop, readFailStep, if_neg hM, if_neg h0, if_pos hW] at hl
        exact ih IDLE 1 (by norm_num [i32MAX]) hrest c' k' hl

/-! ### Claim theorems -/

/-- Claim C1 (mutual exclusion): in every reachable configuration of every
interleaved execution, at most one live `LockGuard` exists, and while one
does, no `ReadOnlyGuard` is live — a guard obtained by `write()` is
exclusive against all other guards until it is dropped. -/
theorem mutual_exclusion {T : Type} (s₀ s : Sys T)
    (h0 : InitConf s₀) (h : Reaches s₀ s) :
    nW s.threads ≤ 1 ∧ (1 ≤ nW s.threads → nR s.threads = 0) := by
  rcases (reaches_inv h0 h).2 with ⟨hW0, _, _⟩ | ⟨hW1, hR0, _⟩
  · exact ⟨by omega, fun h1 => by omega⟩
  · exact ⟨by omega, fun _ => hR0⟩

/-- Concrete run for C1: one thread calls `write()`, its CAS succeeds; in
the resulting configuration the exclusion bound holds. -/
theorem mutual_exclusion_witness :
    InitConf (⟨0, [TState.outside], (0 : Int)⟩ : Sys Int) ∧
    (nW [TState.writing] ≤ 1 ∧ (1 ≤ nW [TState.writing] → nR [TState.writing] = 0)) := by
  have h0 : InitConf (⟨0, [TState.outside], (0 : Int)⟩ : Sys Int) := ⟨rfl, by decide⟩
  refine ⟨h0, ?_⟩
  exact mutual_exclusion ⟨0, [TState.outside], 0⟩ ⟨WRITING, [TState.writing], 0⟩ h0
    (Relation.ReflTransGen.tail
      (Relation.ReflTransGen.tail Relation.ReflTransGen.refl
        ⟨Label.callWrite 0, Step.callWrite 0 [] [] 0⟩)
      ⟨Label.wSucc 0, Step.wSucc [] [] 0⟩)

/-- Claim C2 (state-encoding invariant): `RWLock::new` starts at `IDLE`,
and in every configuration reachable by read-acquire CASes, write-acquire
CASes and the two guard drops, the `state` word is `WRITING = -1` or lies
in `{0, ..., i32::MAX}`; it is never any other negative value. -/
theorem state_encoding_invariant {T : Type} (v : T) (s₀ s : Sys T)
    (h0 : InitConf s₀) (h : Reaches s₀ s) :
    (RWLock.new v).state = IDLE ∧
    (s.state = WRITING ∨ (IDLE ≤ s.state ∧ s.state ≤ i32MAX)) := by
  refine ⟨rfl, ?_⟩
  rcases (reaches_inv h0 h).2 with ⟨_, hst, hbound⟩ | ⟨_, _, hst⟩
  · right
    refine ⟨?_, hst ▸ hbound⟩
    rw [hst]
    simp only [IDLE]
    positivity
  · left
    exact hst

/-- Concrete instance for C2: the initial configuration itself. -/
theorem state_encoding_invariant_witness :
    InitConf (⟨0, [TState.outside], (0 : Int)⟩ : Sys Int) ∧
    ((RWLock.new (7 : Int)).state = IDLE ∧
      ((⟨0, [TState.outside], (0 : Int)⟩ : Sys Int).state = WRITING ∨
        (IDLE ≤ (⟨0, [TState.outside], (0 : Int)⟩ : Sys Int).state ∧
          (⟨0, [TState.outside], (0 : Int)⟩ : Sys Int).state ≤ i32MAX))) := by
  have h0 : InitConf (⟨0, [TState.outside], (0 : Int)⟩ : Sys Int) := ⟨rfl, by decide⟩
  exact ⟨h0, state_encoding_invariant 7 _ _ h0 Relation.ReflTransGen.refl⟩

/-- Claim C3 (read-acquire loop step): the first attempt uses operands
`(IDLE, 1)`; a failed CAS observing `0 < actual < i32::MAX` makes the next
attempt a CAS from `actual` to `actual + 1`; a failed CAS observing
`WRITING` never increments on top of `-1` and resets the next attempt to a
CAS from `IDLE` to `1`. -/
theorem read_acquire_step (a : Int) (h1 : 0 < a) (h2 : a < i32MAX) :
    readInit = (IDLE, 1) ∧
    readFailStep a = .retry a (a + 1) ∧
    readFailStep WRITING = .retry IDLE 1 := by
  refine ⟨rfl, ?_, by decide⟩
  unfold readFailStep
  rw [if_neg (ne_of_lt h2), if_pos (le_of_lt h1)]

/-- Concrete instance for C3 at `actual = 5`. -/
theorem read_acquire_step_witness :
    (0 < (5 : Int) ∧ (5 : Int) < i32MAX) ∧
    (readInit = (IDLE, 1) ∧
      readFailStep 5 = .retry 5 6 ∧
      readFailStep WRITING = .retry IDLE 1) :=
  ⟨by decide, read_acquire_step 5 (by decide) (by decide)⟩

/-- Claim C4 (overflow fatality, raises-iff): a `read()` call — run against
any sequence of observed failed-CAS values that respect the state
invariant — ends in the overflow panic exactly when some failed CAS
observed `i32::MAX`; and when it instead acquires, the reader count it
stores never exceeds `i32::MAX` (the counter never wraps). -/
theorem read_overflow_iff (fs : List Int)
    (h : ∀ a ∈ fs, -1 ≤ a ∧ a ≤ i32MAX) :
    (readCall fs = .panicOverflow ↔ i32MAX ∈ fs) ∧
    (∀ c k, readCall fs = .acquired c k → k ≤ i32MAX) :=
  ⟨readLoop_panic_iff fs IDLE 1 h,
   fun c k hck => readLoop_acquired_le fs IDLE 1 (by norm_num [i32MAX]) h c k hck⟩

/-- Concrete instance for C4: one failed CAS sees `3`, the next sees
`i32::MAX`; the call panics. -/
theorem read_overflow_iff_witness :
    (∀ a ∈ [(3 : Int), i32MAX], -1 ≤ a ∧ a ≤ i32MAX) ∧
    ((readCall [(3 : Int), i32MAX] = .panicOverflow ↔ i32MAX ∈ [(3 : Int), i32MAX]) ∧
      (∀ c k, readCall [(3 : Int), i32MAX] = .acquired c k → k ≤ i32MAX)) :=
  ⟨by decide, read_overflow_iff [(3 : Int), i32MAX] (by decide)⟩

/-- Claim C5 (write-acquire protocol): a successful write CAS fires only
when `state` is exactly `IDLE`, leaves `state = WRITING`, touches neither
the payload nor any reader bookkeeping; a failed write CAS changes nothing
at all, so the loop retries with the same constant operands
`(IDLE, WRITING)` — `write()` has no failure path. -/
theorem write_acquire_protocol {T : Type} (s s' f f' : Sys T) (i j : Nat)
    (hs : Step s (.wSucc i) s') (hf : Step f (.wFail j) f') :
    (s.state = IDLE ∧ s'.state = WRITING ∧ s'.data = s.data ∧
      nR s'.threads = nR s.threads) ∧ f' = f := by
  constructor
  · cases hs with
    | wSucc pre post d =>
      exact ⟨rfl, rfl, rfl, by simp [nR, countP_mid]⟩
  · cases hf with
    | wFail st pre post d => rfl

/-- Concrete instance for C5: one successful and one failed write CAS. -/
theorem write_acquire_protocol_witness :
    ((⟨IDLE, [TState.writeAcq], (0 : Int)⟩ : Sys Int).state = IDLE ∧
      (⟨WRITING, [TState.writing], (0 : Int)⟩ : Sys Int).state = WRITING ∧
      (⟨WRITING, [TState.writing], (0 : Int)⟩ : Sys Int).data =
        (⟨IDLE, [TState.writeAcq], (0 : Int)⟩ : Sys Int).data ∧
      nR [TState.writing] = nR [TState.writeAcq]) ∧
    (⟨5, [TState.writeAcq], (0 : Int)⟩ : Sys Int) =
      ⟨5, [TState.writeAcq], (0 : Int)⟩ :=
  write_acquire_protocol _ _ _ _ 0 0 (Step.wSucc [] [] 0) (Step.wFail 5 [] [] 0)

/-- Claim C6 (ReadGuard release): dropping a `ReadOnlyGuard` performs one
atomic decrement of `state` by `1`, unconditionally of the current value
(for any in-range state the stored value is exactly `state - 1`), cannot
fail, changes nothing else — the payload is untouched — and consumes the
guard (the thread goes from `reading` to `finished`, so the decrement runs
exactly once per guard). -/
theorem read_guard_release {T : Type} (l : RWLock T) (s s' : Sys T) (i : Nat)
    (h1 : WRITING ≤ l.state) (h2 : l.state ≤ i32MAX)
    (hstep : Step s (.rDrop i) s') :
    (readOnlyGuardDrop l).data = l.data ∧
    (readOnlyGuardDrop l).state = l.state - 1 ∧
    s'.data = s.data ∧ s'.state = fetchSub1 s.state ∧
    ∃ pre post, i = pre.length ∧
      s.threads = pre ++ TState.reading :: post ∧
      s'.threads = pre ++ TState.finished :: post := by
  cases hstep with
  | rDrop st pre post d =>
    refine ⟨rfl, ?_, rfl, rfl, pre, post, rfl, rfl, rfl⟩
    show fetchSub1 l.state = l.state - 1
    rw [fetchSub1]
    apply wrap32_eq
    · simp only [WRITING] at h1
      omega
    · simp only [i32MAX] at h2
      omega

/-- Concrete instance for C6: a lock at state `5` and one reader dropping
its guard. -/
theorem read_guard_release_witness :
    (WRITING ≤ (5 : Int) ∧ (5 : Int) ≤ i32MAX) ∧
    ((readOnlyGuardDrop (⟨5, (42 : Int)⟩ : RWLock Int)).data = 42 ∧
      (readOnlyGuardDrop (⟨5, (42 : Int)⟩ : RWLock Int)).state = 5 - 1 ∧
      (⟨fetchSub1 5, [TState.finished], (0 : Int)⟩ : Sys Int).data =
        (⟨5, [TState.reading], (0 : Int)⟩ : Sys Int).data ∧
      (⟨fetchSub1 5, [TState.finished], (0 : Int)⟩ : Sys Int).state =
        fetchSub1 (⟨5, [TState.reading], (0 : Int)⟩ : Sys Int).state ∧
      ∃ pre post, 0 = pre.length ∧
        [TState.reading] = pre ++ TState.reading :: post ∧
        [TState.finished] = pre ++ TState.finished :: post) :=
  ⟨by decide, read_guard_release ⟨5, 42⟩ _ _ 0 (by decide) (by decide)
    (Step.rDrop 5 [] [] 0)⟩

/-- Claim C7 (WriteGuard release frame): dropping a `LockGuard` stores
`IDLE` into `state` regardless of the prior value, leaves the payload and
everything else unchanged, and cannot fail. -/
theorem write_guard_release {T : Type} (l : RWLock T) (s s' : Sys T) (i : Nat)
    (hstep : Step s (.wDrop i) s') :
    (lockGuardDrop l).state = IDLE ∧ (lockGuardDrop l).data = l.data ∧
    s'.state = IDLE ∧ s'.data = s.data ∧
    ∃ pre post, i = pre.length ∧
      s.threads = pre ++ TState.writing :: post ∧
      s'.threads = pre ++ TState.finished :: post := by
  cases hstep with
  | wDrop st pre post d =>
    exact ⟨rfl, rfl, rfl, rfl, pre, post, rfl, rfl, rfl⟩

/-- Concrete instance for C7: a write guard dropped from state `7`
(independence from the prior value). -/
theorem write_guard_release_witness :
    (lockGuardDrop (⟨7, (9 : Int)⟩ : RWLock Int)).state = IDLE ∧
    (lockGuardDrop (⟨7, (9 : Int)⟩ : RWLock Int)).data = 9 ∧
    (⟨IDLE, [TState.finished], (3 : Int)⟩ : Sys Int).state = IDLE ∧
    (⟨IDLE, [TState.finished], (3 : Int)⟩ : Sys Int).data =
      (⟨7, [TState.writing], (3 : Int)⟩ : Sys Int).data ∧
    ∃ pre post, 0 = pre.length ∧
      [TState.writing] = pre ++ TState.writing :: post ∧
      [TState.finished] = pre ++ TState.finished :: post :=
  write_guard_release ⟨7, 9⟩ _ _ 0 (Step.wDrop 7 [] [] 3)

/-- Claim C8 (implicit — Idle observed on failure): a failed read CAS that
observes `actual = 0` (spurious weak-CAS failure, or all previously seen
readers gone) takes the `actual >= 0` branch and makes the next attempt a
CAS from `IDLE` to `1`, covering the Idle case the spec's algorithm leaves
unstated. -/
theorem read_idle_observed :
    readFailStep IDLE = .retry IDLE 1 ∧
    failCont (readFailStep IDLE) = .readAcq IDLE 1 := by
  constructor <;> decide

/-- Claim C9 (implicit — unreachable branch safety): in every reachable
configuration the `state` word is at least `-1`, hence a failed read CAS
never takes the final `unreachable!` branch of `read()`'s retry loop. -/
theorem unreachable_branch_safe {T : Type} (s₀ s : Sys T)
    (h0 : InitConf s₀) (h : Reaches s₀ s) :
    readFailStep s.state ≠ .unreachableHit := by
  have hrange : -1 ≤ s.state := by
    rcases (reaches_inv h0 h).2 with ⟨_, hst, _⟩ | ⟨_, _, hst⟩
    · rw [hst]
      omega
    · rw [hst]
      simp [WRITING]
  unfold readFailStep
  split_ifs with hM h0' hW
  · simp
  · simp
  · simp
  · exfalso
    simp only [WRITING] at hW
    omega

/-- Concrete instance for C9: the initial configuration. -/
theorem unreachable_branch_safe_witness :
    InitConf (⟨0, [TState.outside], (0 : Int)⟩ : Sys Int) ∧
    readFailStep (⟨0, [TState.outside], (0 : Int)⟩ : Sys Int).state ≠ .unreachableHit := by
  have h0 : InitConf (⟨0, [TState.outside], (0 : Int)⟩ : Sys Int) := ⟨rfl, by decide⟩
  exact ⟨h0, unreachable_branch_safe _ _ h0 Relation.ReflTransGen.refl⟩

/-- Claim C10 (implicit — atomicity of the overflow abort): when a read
CAS fails observing `i32::MAX`, the resulting panic leaves the lock's
`state` and payload unchanged, produces no guard (the guard counts are
unchanged and the acquiring thread ends `panicked`), and the panicking
thread performed no successful state modification. -/
theorem overflow_panic_frame {T : Type} (s s' : Sys T) (i : Nat)
    (hstep : Step s (.rFail i) s') (hmax : s.state = i32MAX) :
    s'.state = s.state ∧ s'.data = s.data ∧
    nR s'.threads = nR s.threads ∧ nW s'.threads = nW s.threads ∧
    ∃ pre c k post, i = pre.length ∧
      s.threads = pre ++ TState.readAcq c k :: post ∧
      s'.threads = pre ++ TState.panicked :: post := by
  cases hstep with
  | rFail st c k pre post d =>
    have hst : st = i32MAX := hmax
    have hfc : failCont (readFailStep st) = TState.panicked := by
      rw [hst]
      decide
    refine ⟨rfl, rfl, ?_, ?_, pre, c, k, post, rfl, rfl, ?_⟩
    · rw [hfc]
      simp [nR, countP_mid]
    · rw [hfc]
      simp [nW, countP_mid]
    · rw [hfc]

/-- Concrete instance for C10: a reader's CAS fails while the lock already
holds `i32::MAX` readers. -/
theorem overflow_panic_frame_witness :
    (⟨i32MAX, [TState.readAcq 0 1], (0 : Int)⟩ : Sys Int).state = i32MAX ∧
    ((⟨i32MAX, [TState.panicked], (0 : Int)⟩ : Sys Int).state =
        (⟨i32MAX, [TState.readAcq 0 1], (0 : Int)⟩ : Sys Int).state ∧
      (⟨i32MAX, [TState.panicked], (0 : Int)⟩ : Sys Int).data =
        (⟨i32MAX, [TState.readAcq 0 1], (0 : Int)⟩ : Sys Int).data ∧
      nR [TState.panicked] = nR [TState.readAcq 0 1] ∧
      nW [TState.panicked] = nW [TState.readAcq 0 1] ∧
      ∃ pre c k post, 0 = pre.length ∧
        [TState.readAcq 0 1] = pre ++ TState.readAcq c k :: post ∧
        [TState.panicked] = pre ++ TState.panicked :: post) := by
  have hstep := Step.rFail i32MAX 0 1 ([] : List TState) [] (0 : Int)
  have hfc : failCont (readFailStep i32MAX) = TState.panicked := by decide
  refine ⟨rfl, ?_⟩
  have := overflow_panic_frame _ _ 0 hstep rfl
  rw [hfc] at this
  exact this
